import Mathlib

/-!
Verification of the `number_dialer` widget logic of the conrod repository
(`src/number_dialer.rs`, `src/label.rs`).

Conventions of the shallow embedding:
* `f64` values are modelled as exact rationals (`ℚ`); the source's floating
  point arithmetic is idealised as exact rational arithmetic.
* `uint` (64-bit) wrapping subtraction is modelled with `Int.emod (2 ^ 64)`.
* Rust `Option`-returning trait conversions followed by `.unwrap()` are
  modelled by propagating `none` (a `none` result models a panic).
* Strings are modelled as `List Char`.
-/

namespace Conrod

/-- A 3-d point, as in conrod's `point::Point` (the `z` component is always
`0.0` in this widget). Coordinates are `f64`, modelled as `ℚ`. -/
structure Point where
  x : ℚ
  y : ℚ
  z : ℚ
deriving DecidableEq

/-- The specific elements that the NumberDialer is made up of
(`number_dialer.rs`, `enum Element`). `ValueGlyph idx y` carries the value
glyph slot index and the last `mouse.pos.y`. -/
inductive Element where
  | Rect : Element
  | LabelGlyphs : Element
  | ValueGlyph : Nat → ℚ → Element
deriving DecidableEq

/-- The state of the widget (`number_dialer.rs`, `enum State`). -/
inductive State where
  | Normal : State
  | Highlighted : Element → State
  | Clicked : Element → State
deriving DecidableEq

/-- The left-button state of the mouse (`mouse_state::{Up, Down}`). -/
inductive MouseButtonState where
  | Up : MouseButtonState
  | Down : MouseButtonState
deriving DecidableEq

/-- The per-frame mouse snapshot; only the fields the dialer reads
(`mouse.pos` and `mouse.left`) are modelled. -/
structure MouseState where
  pos : Point
  left : MouseButtonState
deriving DecidableEq

/-- Modelled from the spec: `utils::clamp` (the `utils` module is not under
`src/`). The spec states values are always clamped into `[min, max]`:
below `min` gives `min`, above `max` gives `max`, otherwise unchanged. -/
def clamp (n min max : ℚ) : ℚ :=
  if n < min then min else if n > max then max else n

/-- Modelled from the spec: `utils::compare_f64s` (not under `src/`). The
spec describes the vertical ordering as the comparison of the new pointer y
against the previous drag-reference y. -/
def compare_f64s (a b : ℚ) : Ordering :=
  if a < b then .lt else if a > b then .gt else .eq

/-- Translation of `create_val_string` (`number_dialer.rs` lines 59-87),
taking the output of the external `val.to_string()` collaborator as input.
First the decimal places are fixed up to exactly `precision` digits, then
the string is left-padded with `'0'` up to length `len` (`len.cmp` match:
only the `Less` arm pads). -/
def create_val_string (val_string : List Char) (len : Nat) (precision : Nat) : List Char :=
  let s : List Char :=
    match val_string.findIdx? (fun ch => ch == '.'), precision with
    | none, 0 => val_string
    | none, _ => (val_string ++ ['.']) ++ List.replicate precision '0'
    | some idx, 0 => val_string.take idx
    | some idx, _ =>
      let desired_len := idx + precision + 1
      if val_string.length > desired_len then val_string.take desired_len
      else if val_string.length = desired_len then val_string
      else val_string ++ List.replicate (desired_len - val_string.length) '0'
  if s.length < len then List.replicate (len - s.length) '0' ++ s else s

/-- Floor of a rational, used to model `f64::floor` and `as` casts to
integer types (Euclidean division by a positive denominator is floor). -/
def rat_floor (q : ℚ) : Int := q.num / (q.den : Int)

/-- Ceiling of a rational. -/
def rat_ceil (q : ℚ) : Int := -rat_floor (-q)

/-- Truncation toward zero, modelling Rust's `f64` → integer `as` casts. -/
def rat_trunc (q : ℚ) : Int := if 0 ≤ q then rat_floor q else rat_ceil q

/-- Model of the `val_string_h as u32` cast in `is_over` (nonnegative
sizes in practice; negative values are truncated toward zero and clamped
at `0` by `Int.toNat`). -/
def f64_as_u32 (q : ℚ) : Nat := (rat_trunc q).toNat

/-- Translation of `value_glyph_slot_width` (`number_dialer.rs` lines
90-92): `(size as f64 * 0.75).floor()`. -/
def value_glyph_slot_width (size : Nat) : ℚ :=
  (rat_floor ((size : ℚ) * 0.75) : ℚ)

/-- Modelled from the spec: `rectangle::is_over` (the `rectangle` module is
not under `src/`). Axis-aligned containment, half-open on the far edges:
`x ∈ [left, left+width)` and `y ∈ [top, top+height)`. -/
def rectangle_is_over (pos : Point) (mouse_pos : Point) (w h : ℚ) : Bool :=
  decide (pos.x ≤ mouse_pos.x) && decide (mouse_pos.x < pos.x + w) &&
  decide (pos.y ≤ mouse_pos.y) && decide (mouse_pos.y < pos.y + h)

/-- Translation of the `for i in range(0u, val_string_len)` loop inside
`is_over` (`number_dialer.rs` lines 147-152): scan digit slots from left to
right, each of width `slot_w`, returning the first slot containing the
mouse. `remaining` is the number of slots still to scan and `i` the index
of the current slot, so the call with `i = 0` and `remaining = len` scans
slots `0, …, len - 1` exactly as the source loop does. -/
def slot_scan (x y : ℚ) (mouse_pos : Point) (slot_w rect_h : ℚ) (i : Nat) :
    Nat → Option Element
  | 0 => none
  | remaining + 1 =>
    if rectangle_is_over ⟨x, y, 0⟩ mouse_pos slot_w rect_h then
      some (Element.ValueGlyph i mouse_pos.y)
    else
      slot_scan (x + slot_w) y mouse_pos slot_w rect_h (i + 1) remaining

/-- Translation of `is_over` (`number_dialer.rs` lines 122-160): hit-test
hierarchy resolving which element of the dialer the mouse is over. -/
def is_over (pos : Point) (frame_w : ℚ) (mouse_pos : Point) (rect_w rect_h : ℚ)
    (l_pos : Point) (label_w label_h : ℚ) (val_string_w val_string_h : ℚ)
    (val_string_len : Nat) : Option Element :=
  match rectangle_is_over pos mouse_pos rect_w rect_h with
  | false => none
  | true =>
    match rectangle_is_over l_pos mouse_pos label_w label_h with
    | true => some Element.LabelGlyphs
    | false =>
      let frame_w2 := frame_w * 2
      let slot_rect_pos : Point := ⟨l_pos.x + label_w, pos.y + frame_w, 0⟩
      match rectangle_is_over slot_rect_pos mouse_pos val_string_w (rect_h - frame_w2) with
      | false => some Element.Rect
      | true =>
        let slot_w := value_glyph_slot_width (f64_as_u32 val_string_h)
        match slot_scan slot_rect_pos.x slot_rect_pos.y mouse_pos slot_w rect_h
            0 val_string_len with
        | some elem => some elem
        | none => some Element.Rect

/-- Translation of `get_new_state` (`number_dialer.rs` lines 164-185):
the per-frame interaction state machine. -/
def get_new_state (is_over_elem : Option Element) (prev : State)
    (mouse : MouseState) : State :=
  match is_over_elem, prev, mouse.left with
  | some _, State.Normal, MouseButtonState.Down => State.Normal
  | some elem, _, MouseButtonState.Up => State.Highlighted elem
  | some elem, State.Highlighted _, MouseButtonState.Down => State.Clicked elem
  | some _, State.Clicked p_elem, MouseButtonState.Down =>
    match p_elem with
    | Element.ValueGlyph idx _ => State.Clicked (Element.ValueGlyph idx mouse.pos.y)
    | _ => State.Clicked p_elem
  | none, State.Clicked p_elem, MouseButtonState.Down =>
    match p_elem with
    | Element.ValueGlyph idx _ => State.Clicked (Element.ValueGlyph idx mouse.pos.y)
    | _ => State.Clicked p_elem
  | _, _, _ => State.Normal

/-- The floating-point core of `get_new_value` (`number_dialer.rs` lines
194-216): given the already-converted `val_f`, `min_f`, `max_f`, locate the
decimal point, compute the decimal exponent `power` of the clicked digit
slot, and clamp the adjusted value. In the no-decimal-point branch the
source computes `val_string.len() - idx - 1u` in `uint` arithmetic, which
wraps modulo `2 ^ 64`; the decimal branch uses `int` (`i64`) arithmetic,
whose overflow is unreachable for any realistic string length and so is
modelled with `Int` directly. The `(10f32).powf` delta is idealised as the
exact rational `10 ^ power`. -/
def get_new_value_f (val_f min_f max_f : ℚ) (idx : Nat) (y_ord : Ordering)
    (val_string : List Char) : ℚ :=
  let decimal_pos := val_string.findIdx? (fun ch => ch == '.')
  match decimal_pos with
  | none =>
    let power : Int := ((val_string.length : Int) - (idx : Int) - 1) % (2 ^ 64)
    match y_ord with
    | .lt => clamp (val_f + (10 : ℚ) ^ power) min_f max_f
    | .gt => clamp (val_f - (10 : ℚ) ^ power) min_f max_f
    | _ => val_f
  | some dec_idx =>
    let power0 : Int := (dec_idx : Int) - (idx : Int) - 1
    let power : Int := if power0 < -1 then power0 + 1 else power0
    match y_ord with
    | .lt => clamp (val_f + (10 : ℚ) ^ power) min_f max_f
    | .gt => clamp (val_f - (10 : ℚ) ^ power) min_f max_f
    | _ => val_f

/-- Translation of `get_new_value` (`number_dialer.rs` lines 189-221) at
the idealised instantiation where the numeric type `T` is `ℚ` itself and
the `to_f64` / `from_f64` conversions are exact (the identity). -/
def get_new_value (val min max : ℚ) (idx : Nat) (y_ord : Ordering)
    (val_string : List Char) : ℚ :=
  match y_ord with
  | .eq => val
  | _ => get_new_value_f val min max idx y_ord val_string

/-- Translation of `get_new_value` (`number_dialer.rs` lines 189-221)
keeping the numeric type `T` and its fallible trait conversions abstract:
`to_f64` models `ToPrimitive::to_f64` and `from_f64` models
`FromPrimitive::from_f64`. Each conversion result is `.unwrap()`ed by the
source, so a `none` conversion makes the whole call `none` (a panic). -/
def get_new_value_conv {T : Type} (to_f64 : T → Option ℚ) (from_f64 : ℚ → Option T)
    (val min max : T) (idx : Nat) (y_ord : Ordering)
    (val_string : List Char) : Option T :=
  match y_ord with
  | .eq => some val
  | _ =>
    match to_f64 val, to_f64 min, to_f64 max with
    | some val_f, some min_f, some max_f =>
      from_f64 (get_new_value_f val_f min_f max_f idx y_ord val_string)
    | _, _, _ => none

/-- Number of binary digits of `n`, computed with explicit fuel so that the
definition is structurally recursive (used to model IEEE-754 rounding). -/
def bits_aux : Nat → Nat → Nat
  | 0, _ => 0
  | fuel + 1, n => if n = 0 then 0 else bits_aux fuel (n / 2) + 1

/-- Model of the external `ToPrimitive::to_f64` rounding for 64-bit
integers: IEEE-754 binary64 round-to-nearest, ties-to-even, restricted to
integer inputs. Integers of magnitude at most `2 ^ 53` are exact; larger
ones are rounded to the nearest multiple of the unit in the last place. -/
def round_f64_int (n : Int) : Int :=
  let a := n.natAbs
  if a ≤ 2 ^ 53 then n
  else
    let e := bits_aux 128 a - 1
    let ulp := 2 ^ (e - 52)
    let q := a / ulp
    let r := a % ulp
    let rounded :=
      if 2 * r < ulp then q
      else if ulp < 2 * r then q + 1
      else if q % 2 = 0 then q else q + 1
    n.sign * ((rounded * ulp : Nat) : Int)

/-- Model of the external `ToPrimitive::to_f64` implementation for `i64`:
always succeeds, rounding the integer to the nearest `f64`. -/
def i64_to_f64 (n : Int) : Option ℚ := some ((round_f64_int n : Int) : ℚ)

/-- Model of the external checked `FromPrimitive::from_f64` implementation
for `i64`: truncate toward zero, failing when the result does not fit in
the 64-bit signed range. -/
def i64_from_f64 (q : ℚ) : Option Int :=
  let t := rat_trunc q
  if -(2 ^ 63) ≤ t ∧ t ≤ 2 ^ 63 - 1 then some t else none

/-- The width and font size of the label region; the width of the rendered
label string comes from the external text-layout collaborator
(`label::width`), so it is carried as data rather than recomputed. -/
structure LabelInfo where
  width : ℚ
  size : Nat
deriving DecidableEq

/-- Translation of `val_string_dimensions` (`number_dialer.rs` lines
108-118): width is one slot width per character, height is the font size. -/
def val_string_dimensions (font_size : Nat) (maybe_label : Option LabelInfo)
    (val_string : List Char) : ℚ × ℚ :=
  let size := match maybe_label with
    | none => font_size
    | some l => l.size
  let slot_w := value_glyph_slot_width size
  (slot_w * (val_string.length : ℚ), (size : ℚ))

/-- The builder-produced widget context (`struct NumberDialerContext`,
`number_dialer.rs` lines 297-311), with the numeric type instantiated at
`ℚ`, colors omitted (draw-only), the frame reduced to its width, the label
to its layout data, and the callback to a presence flag. -/
structure NumberDialerContext where
  value : ℚ
  min : ℚ
  max : ℚ
  pos : Point
  width : ℚ
  height : ℚ
  precision : Nat
  maybe_frame : Option ℚ
  maybe_label : Option LabelInfo
  maybe_callback : Bool
deriving DecidableEq

/-- Translation of `NumberDialerBuilder::number_dialer` (`number_dialer.rs`
lines 320-341): assemble the context, clamping the supplied value. -/
def number_dialer (value min max : ℚ) (precision : Nat) : NumberDialerContext :=
  { value := clamp value min max
    min := min
    max := max
    pos := ⟨0, 0, 0⟩
    width := 128
    height := 48
    precision := precision
    maybe_frame := none
    maybe_label := none
    maybe_callback := false }

/-- The press/release edge test of `draw` (`number_dialer.rs` lines
425-428): a transition between `Highlighted` and `Clicked` in either
direction. -/
def hl_click_transition : State → State → Bool
  | State.Highlighted _, State.Clicked _ => true
  | State.Clicked _, State.Highlighted _ => true
  | _, _ => false

/-- The observable outcome of one frame of `draw`: the persisted state, the
committed value, the list of arguments the callback was invoked with, and
the string finally drawn. -/
structure FrameResult where
  new_state : State
  new_val : ℚ
  callback_args : List ℚ
  val_string : List Char
deriving DecidableEq

/-- Translation of the update logic of `NumberDialerContext::draw`
(`number_dialer.rs` lines 356-436) with the GL drawing calls dropped:
format the value, lay out the label and value regions, hit-test, advance
the state machine, adjust the value when a clicked value glyph persists
across the frame with a changed drag-reference y, reformat on change, and
invoke the callback when the value changed or a Highlighted/Clicked edge
occurred. `toString` is the external `ToString` collaborator and
`label_w` inside `maybe_label` stands for the external
`label_string_and_dimensions` width. -/
def draw_frame (toString : ℚ → List Char) (c : NumberDialerContext)
    (state : State) (mouse : MouseState) : FrameResult :=
  let frame_w := match c.maybe_frame with
    | some w => w
    | none => 0
  let font_size : Nat := 24
  let label_w := match c.maybe_label with
    | none => 0
    | some l => l.width
  let label_h := match c.maybe_label with
    | none => (0 : ℚ)
    | some l => (l.size : ℚ)
  let val_string_len := (toString c.max).length +
    (if c.precision = 0 then 0 else 1 + c.precision)
  let val_string := create_val_string (toString c.value) val_string_len c.precision
  let dims := val_string_dimensions font_size c.maybe_label val_string
  let val_string_w := dims.1
  let val_string_h := dims.2
  let label_x := c.pos.x + (c.width - (label_w + val_string_w)) / 2
  let label_y := c.pos.y + (c.height - (font_size : ℚ)) / 2
  let l_pos : Point := ⟨label_x, label_y, 0⟩
  let is_over_elem := is_over c.pos frame_w mouse.pos c.width c.height
    l_pos label_w label_h val_string_w val_string_h val_string.length
  let new_state := get_new_state is_over_elem state mouse
  let new_val := match state, new_state with
    | State.Clicked elem, State.Clicked new_elem =>
      match elem, new_elem with
      | Element.ValueGlyph idx y, Element.ValueGlyph _ new_y =>
        get_new_value c.value c.min c.max idx (compare_f64s new_y y) val_string
      | _, _ => c.value
    | _, _ => c.value
  let val_string :=
    if c.value ≠ new_val then create_val_string (toString new_val) val_string_len c.precision
    else val_string
  let callback_args : List ℚ :=
    if decide (c.value ≠ new_val) || hl_click_transition state new_state then
      (if c.maybe_callback then [new_val] else [])
    else []
  ⟨new_state, new_val, callback_args, val_string⟩

/-! ### Helper lemmas -/

theorem clamp_mem (x lo hi : ℚ) (h : lo ≤ hi) : lo ≤ clamp x lo hi ∧ clamp x lo hi ≤ hi := by
  unfold clamp
  split_ifs with h1 h2
  · exact ⟨le_refl _, h⟩
  · exact ⟨h, le_refl _⟩
  · exact ⟨le_of_not_lt h1, le_of_not_lt h2⟩

theorem findIdx_dot_none (l : List Char) (h : '.' ∉ l) :
    l.findIdx? (fun ch => ch == '.') = none :=
  List.findIdx?_eq_none_iff.mpr fun c hc => by
    simp only [beq_eq_false_iff_ne, ne_eq]
    rintro rfl
    exact h hc

theorem findIdx_dot_append (a b : List Char) (h : '.' ∉ a) :
    (a ++ '.' :: b).findIdx? (fun ch => ch == '.') = some a.length := by
  rw [List.findIdx?_append, findIdx_dot_none a h]
  simp [List.findIdx?_cons]

theorem no_dot_of_digits (l : List Char) (h : ∀ c ∈ l, c.isDigit) : '.' ∉ l :=
  fun hm => absurd (h _ hm) (by decide)

/-! ### C1, C5, C6, C7, C10 -/

/-- C1: for every value, min, max with min ≤ value ≤ max, every digit index,
every vertical ordering and every digit string, `get_new_value` returns a
result within `[min, max]`; when the ordering is `Equal` the result equals
the input value exactly. -/
theorem get_new_value_in_bounds (val mn mx : ℚ) (idx : Nat) (y_ord : Ordering)
    (s : List Char) (h1 : mn ≤ val) (h2 : val ≤ mx) :
    (mn ≤ get_new_value val mn mx idx y_ord s ∧ get_new_value val mn mx idx y_ord s ≤ mx) ∧
    get_new_value val mn mx idx Ordering.eq s = val := by
  have hmm : mn ≤ mx := h1.trans h2
  refine ⟨?_, rfl⟩
  cases y_ord with
  | eq => exact ⟨h1, h2⟩
  | lt =>
    show mn ≤ get_new_value_f val mn mx idx .lt s ∧ get_new_value_f val mn mx idx .lt s ≤ mx
    unfold get_new_value_f
    cases hf : s.findIdx? (fun ch => ch == '.') with
    | none => simpa using clamp_mem _ _ _ hmm
    | some d => simpa using clamp_mem _ _ _ hmm
  | gt =>
    show mn ≤ get_new_value_f val mn mx idx .gt s ∧ get_new_value_f val mn mx idx .gt s ≤ mx
    unfold get_new_value_f
    cases hf : s.findIdx? (fun ch => ch == '.') with
    | none => simpa using clamp_mem _ _ _ hmm
    | some d => simpa using clamp_mem _ _ _ hmm

/-- Witness for C1 at a concrete input: value 5 in `[0, 10]`, dragging up
on the single digit of `"7"` gives 6, inside the bounds. -/
theorem get_new_value_in_bounds_witness :
    ((0:ℚ) ≤ get_new_value 5 0 10 0 Ordering.lt ['7'] ∧
      get_new_value 5 0 10 0 Ordering.lt ['7'] ≤ 10) ∧
    get_new_value 5 0 10 0 Ordering.eq ['7'] = 5 :=
  get_new_value_in_bounds 5 0 10 0 Ordering.lt ['7'] (by norm_num) (by norm_num)

/-- C5: from `Clicked (ValueGlyph i y)` with the button down, the next
state is `Clicked (ValueGlyph i mouse.pos.y)` — the clicked digit index is
preserved and the drag-reference y replaced by the current pointer y — for
every hit result, `some` element or `none` alike. -/
theorem get_new_state_drag_updates_y (hit : Option Element) (i : Nat) (y : ℚ) (p : Point) :
    get_new_state hit (State.Clicked (Element.ValueGlyph i y)) ⟨p, MouseButtonState.Down⟩ =
      State.Clicked (Element.ValueGlyph i p.y) := by
  cases hit <;> rfl

/-- C6: with the button up, `get_new_state` never returns a `Clicked`
state: a `some e` hit yields `Highlighted e` and a `none` hit yields
`Normal`, whatever the previous state. -/
theorem get_new_state_up_never_clicked (prev : State) (e : Element) (p : Point) :
    (∀ (hit : Option Element) (e2 : Element),
      get_new_state hit prev ⟨p, MouseButtonState.Up⟩ ≠ State.Clicked e2) ∧
    get_new_state (some e) prev ⟨p, MouseButtonState.Up⟩ = State.Highlighted e ∧
    get_new_state none prev ⟨p, MouseButtonState.Up⟩ = State.Normal := by
  refine ⟨fun hit e2 => ?_, ?_, ?_⟩
  · cases hit <;> cases prev <;> simp [get_new_state]
  · cases prev <;> rfl
  · cases prev <;> rfl

/-- Witness for C6 at concrete states: with the button up, a `Rect` hit
from `Normal` highlights, and a `none` hit from a clicked state resets to
`Normal`. -/
theorem get_new_state_up_never_clicked_witness :
    get_new_state (some Element.Rect) State.Normal ⟨⟨0, 0, 0⟩, MouseButtonState.Up⟩ =
      State.Highlighted Element.Rect ∧
    get_new_state none (State.Clicked Element.Rect) ⟨⟨0, 0, 0⟩, MouseButtonState.Up⟩ =
      State.Normal :=
  ⟨(get_new_state_up_never_clicked State.Normal Element.Rect ⟨0, 0, 0⟩).2.1,
    (get_new_state_up_never_clicked (State.Clicked Element.Rect) Element.Rect ⟨0, 0, 0⟩).2.2⟩

/-- C7: a hit with the button down from a cold `Normal` previous state
leaves the state `Normal`: no drag can start without passing through
`Highlighted` first. -/
theorem get_new_state_cold_normal_down (e : Element) (p : Point) :
    get_new_state (some e) State.Normal ⟨p, MouseButtonState.Down⟩ = State.Normal := rfl

/-- C10: the `number_dialer` builder clamps the caller-supplied value into
`[min, max]` at construction, for every supplied value, including one
outside the bounds. -/
theorem number_dialer_clamps_value (value mn mx : ℚ) (precision : Nat) (h : mn ≤ mx) :
    mn ≤ (number_dialer value mn mx precision).value ∧
    (number_dialer value mn mx precision).value ≤ mx :=
  clamp_mem value mn mx h

/-- Witness for C10 at a concrete input: value 150 with bounds `[0, 100]`
is stored clamped inside the bounds. -/
theorem number_dialer_clamps_value_witness :
    (0:ℚ) ≤ (number_dialer 150 0 100 0).value ∧ (number_dialer 150 0 100 0).value ≤ 100 :=
  number_dialer_clamps_value 150 0 100 0 (by norm_num)

/-! ### C3 -/

/-- The final left-padding step of `create_val_string`, abbreviated for the
lemmas below. -/
def left_pad (mid : List Char) (len : Nat) : List Char :=
  if mid.length < len then List.replicate (len - mid.length) '0' ++ mid else mid

theorem cvs_no_dot_zero (v : List Char) (len : Nat) (h : '.' ∉ v) :
    create_val_string v len 0 = left_pad v len := by
  unfold create_val_string left_pad
  rw [findIdx_dot_none v h]

theorem cvs_no_dot_succ (v : List Char) (len p : Nat) (h : '.' ∉ v) :
    create_val_string v len (p + 1) = left_pad ((v ++ ['.']) ++ List.replicate (p + 1) '0') len := by
  unfold create_val_string left_pad
  rw [findIdx_dot_none v h]
  rfl

theorem cvs_dot_zero (a b : List Char) (len : Nat) (h : '.' ∉ a) :
    create_val_string (a ++ '.' :: b) len 0 = left_pad a len := by
  have h1 : create_val_string (a ++ '.' :: b) len 0 =
      left_pad ((a ++ '.' :: b).take a.length) len := by
    unfold create_val_string left_pad
    rw [findIdx_dot_append a b h]
  rw [h1, List.take_left]

theorem cvs_dot_succ (a b : List Char) (len p : Nat) (h : '.' ∉ a) :
    create_val_string (a ++ '.' :: b) len (p + 1) =
      left_pad
        (if (a ++ '.' :: b).length > a.length + (p + 1) + 1
          then (a ++ '.' :: b).take (a.length + (p + 1) + 1)
          else if (a ++ '.' :: b).length = a.length + (p + 1) + 1 then a ++ '.' :: b
          else (a ++ '.' :: b) ++
            List.replicate (a.length + (p + 1) + 1 - (a ++ '.' :: b).length) '0')
        len := by
  unfold create_val_string left_pad
  rw [findIdx_dot_append a b h]
  rfl

theorem left_pad_length (mid : List Char) (len : Nat) (h : mid.length ≤ len) :
    (left_pad mid len).length = len := by
  unfold left_pad
  split
  · simp only [List.length_append, List.length_replicate]
    omega
  · omega

theorem left_pad_no_dot (mid : List Char) (len : Nat) (h : '.' ∉ mid) :
    '.' ∉ left_pad mid len := by
  unfold left_pad
  split
  · intro hm
    rcases List.mem_append.mp hm with hm | hm
    · exact absurd (List.eq_of_mem_replicate hm) (by decide)
    · exact h hm
  · exact h

theorem left_pad_decompose (i b : List Char) (len : Nat) (h : '.' ∉ i) :
    ∃ a : List Char, left_pad (i ++ '.' :: b) len = a ++ '.' :: b ∧ '.' ∉ a := by
  unfold left_pad
  split
  · refine ⟨List.replicate (len - (i ++ '.' :: b).length) '0' ++ i, by simp, ?_⟩
    intro hm
    rcases List.mem_append.mp hm with hm | hm
    · exact absurd (List.eq_of_mem_replicate hm) (by decide)
    · exact h hm
  · exact ⟨i, rfl, h⟩

/-- C3: for every value whose decimal text has at most `digits(max)`
integer-part digits, `create_val_string` returns a string of exactly
`totalLength = digits(max) + (precision > 0 ? 1 + precision : 0)`
characters, with exactly `precision` digit characters after the decimal
point when `precision > 0` and no decimal point at all when
`precision = 0`. -/
theorem create_val_string_spec
    (intPart fracPart : List Char) (maxDigits precision len : Nat)
    (hi : ∀ c ∈ intPart, c.isDigit) (hf : ∀ c ∈ fracPart, c.isDigit)
    (hmax : intPart.length ≤ maxDigits)
    (hlen : len = maxDigits + (if precision = 0 then 0 else 1 + precision))
    (s : List Char) (hs : s = intPart ∨ s = intPart ++ '.' :: fracPart) :
    (create_val_string s len precision).length = len ∧
    (precision = 0 → '.' ∉ create_val_string s len precision) ∧
    (0 < precision → ∃ a b : List Char, create_val_string s len precision = a ++ '.' :: b ∧
      '.' ∉ a ∧ b.length = precision ∧ ∀ c ∈ b, c.isDigit) := by
  have hdotI : '.' ∉ intPart := no_dot_of_digits _ hi
  rcases Nat.eq_zero_or_pos precision with hp | hp
  · -- precision = 0: the value string is truncated at the point and padded.
    subst hp
    simp only [if_pos rfl, Nat.add_zero] at hlen
    have hcvs : create_val_string s len 0 = left_pad intPart len := by
      rcases hs with hs | hs
      · rw [hs]
        exact cvs_no_dot_zero intPart len hdotI
      · rw [hs]
        exact cvs_dot_zero intPart fracPart len hdotI
    rw [hcvs]
    exact ⟨left_pad_length intPart len (by omega), fun _ => left_pad_no_dot intPart len hdotI,
      fun hq => absurd hq (by omega)⟩
  · -- precision > 0: the fractional part is normalised to `precision` digits.
    obtain ⟨p, rfl⟩ : ∃ p, precision = p + 1 := ⟨precision - 1, by omega⟩
    simp only [if_neg (Nat.succ_ne_zero p)] at hlen
    have key : ∃ b : List Char, create_val_string s len (p + 1) = left_pad (intPart ++ '.' :: b) len ∧
        b.length = p + 1 ∧ ∀ c ∈ b, c.isDigit := by
      rcases hs with hs | hs <;> rw [hs]
      · -- no decimal point in the value string: append one and pad with zeros
        refine ⟨List.replicate (p + 1) '0', ?_, List.length_replicate _ _, ?_⟩
        · rw [cvs_no_dot_succ intPart len p hdotI]
          have : (intPart ++ ['.']) ++ List.replicate (p + 1) '0' =
              intPart ++ '.' :: List.replicate (p + 1) '0' := by
            simp
          rw [this]
        · intro c hc
          rw [List.eq_of_mem_replicate hc]
          decide
      · -- decimal point present: truncate or zero-pad the fraction
        rw [cvs_dot_succ intPart fracPart len p hdotI]
        have hslen : (intPart ++ '.' :: fracPart).length =
            intPart.length + 1 + fracPart.length := by
          simp only [List.length_append, List.length_cons]
          omega
        rcases Nat.lt_trichotomy fracPart.length (p + 1) with hF | hF | hF
        · -- too few fractional digits: grow with zeros
          refine ⟨fracPart ++ List.replicate (p + 1 - fracPart.length) '0', ?_, ?_, ?_⟩
          · have hc1 : ¬ (intPart ++ '.' :: fracPart).length > intPart.length + (p + 1) + 1 := by
              omega
            have hc2 : ¬ (intPart ++ '.' :: fracPart).length = intPart.length + (p + 1) + 1 := by
              omega
            rw [if_neg hc1, if_neg hc2]
            have harr : (intPart ++ '.' :: fracPart) ++
                List.replicate (intPart.length + (p + 1) + 1 - (intPart ++ '.' :: fracPart).length) '0' =
                intPart ++ '.' :: (fracPart ++ List.replicate (p + 1 - fracPart.length) '0') := by
              have : intPart.length + (p + 1) + 1 - (intPart ++ '.' :: fracPart).length =
                  p + 1 - fracPart.length := by omega
              rw [this]
              simp
            rw [harr]
          · simp only [List.length_append, List.length_replicate]
            omega
          · intro c hc
            rcases List.mem_append.mp hc with hc | hc
            · exact hf c hc
            · rw [List.eq_of_mem_replicate hc]
              decide
        · -- exactly the right number of fractional digits: unchanged
          refine ⟨fracPart, ?_, hF, hf⟩
          have hc1 : ¬ (intPart ++ '.' :: fracPart).length > intPart.length + (p + 1) + 1 := by
            omega
          have hc2 : (intPart ++ '.' :: fracPart).length = intPart.length + (p + 1) + 1 := by
            omega
          rw [if_neg hc1, if_pos hc2]
        · -- too many fractional digits: truncate
          refine ⟨fracPart.take (p + 1), ?_, ?_, ?_⟩
          · have hc1 : (intPart ++ '.' :: fracPart).length > intPart.length + (p + 1) + 1 := by
              omega
            rw [if_pos hc1]
            have htake : (intPart ++ '.' :: fracPart).take (intPart.length + (p + 1) + 1) =
                intPart ++ '.' :: fracPart.take (p + 1) := by
              rw [List.take_append_eq_append_take,
                List.take_of_length_le (by omega)]
              have : intPart.length + (p + 1) + 1 - intPart.length = p + 2 := by omega
              rw [this, List.take_succ_cons]
            rw [htake]
          · rw [List.length_take]
            omega
          · intro c hc
            exact hf c (List.mem_of_mem_take hc)
    obtain ⟨b, hcvs, hblen, hbdig⟩ := key
    rw [hcvs]
    have hmidlen : (intPart ++ '.' :: b).length ≤ len := by
      simp only [List.length_append, List.length_cons]
      omega
    obtain ⟨a, hdec, hadot⟩ := left_pad_decompose intPart b len hdotI
    exact ⟨left_pad_length _ len hmidlen, fun h0 => absurd h0 (by omega),
      fun _ => ⟨a, b, hdec, hadot, hblen, hbdig⟩⟩

/-- Witness for C3 at a concrete input: value text `"3.5"` with
`digits(max) = 2` and precision 2 formats to the 5-character `"03.50"`. -/
theorem create_val_string_spec_witness :
    (create_val_string ['3', '.', '5'] 5 2).length = 5 ∧
    ∃ a b : List Char, create_val_string ['3', '.', '5'] 5 2 = a ++ '.' :: b ∧
      '.' ∉ a ∧ b.length = 2 ∧ ∀ c ∈ b, c.isDigit := by
  have h := create_val_string_spec ['3'] ['5'] 2 2 5 (by decide) (by decide) (by decide)
    (by decide) ['3', '.', '5'] (Or.inr rfl)
  exact ⟨h.1, h.2.2 (by omega)⟩

/-! ### C4 -/

/-- C4: with ordering `Less` or `Greater`, the decimal exponent is
`stringLength - digitIndex - 1` when the digit string has no decimal point,
and `decIdx - digitIndex - 1` (incremented by 1 when that quantity falls
below `-1`) when the decimal point sits at position `decIdx`; the value
moves by `+10 ^ power` on `Less` and `-10 ^ power` on `Greater` before
clamping, so dragging up on the digit immediately after the decimal point
adds `10 ^ (-1)`. -/
theorem get_new_value_power_delta (val mn mx : ℚ) (idx : Nat) (s : List Char) :
    ('.' ∉ s → idx < s.length → s.length < 2 ^ 64 →
      get_new_value val mn mx idx Ordering.lt s =
        clamp (val + (10 : ℚ) ^ ((s.length : Int) - idx - 1)) mn mx ∧
      get_new_value val mn mx idx Ordering.gt s =
        clamp (val - (10 : ℚ) ^ ((s.length : Int) - idx - 1)) mn mx) ∧
    (∀ intPart fracPart : List Char, '.' ∉ intPart → s = intPart ++ '.' :: fracPart →
      get_new_value val mn mx idx Ordering.lt s =
        clamp (val + (10 : ℚ) ^
          (if (intPart.length : Int) - idx - 1 < -1 then (intPart.length : Int) - idx - 1 + 1
            else (intPart.length : Int) - idx - 1)) mn mx ∧
      get_new_value val mn mx idx Ordering.gt s =
        clamp (val - (10 : ℚ) ^
          (if (intPart.length : Int) - idx - 1 < -1 then (intPart.length : Int) - idx - 1 + 1
            else (intPart.length : Int) - idx - 1)) mn mx) ∧
    (∀ intPart fracPart : List Char, '.' ∉ intPart → s = intPart ++ '.' :: fracPart →
      idx = intPart.length + 1 →
      get_new_value val mn mx idx Ordering.lt s =
        clamp (val + (10 : ℚ) ^ (-1 : Int)) mn mx) := by
  refine ⟨?_, ?_, ?_⟩
  · intro hdot hidx hlen
    have h64 : ((2 : Int) ^ 64) = 18446744073709551616 := by norm_num
    have hmod : ((s.length : Int) - idx - 1) % ((2 : Int) ^ 64) = (s.length : Int) - idx - 1 :=
      Int.emod_eq_of_lt (by omega) (by rw [h64]; omega)
    constructor
    · show get_new_value_f val mn mx idx .lt s = _
      unfold get_new_value_f
      rw [findIdx_dot_none s hdot]
      show clamp (val + (10 : ℚ) ^ (((s.length : Int) - idx - 1) % (2 : Int) ^ 64)) mn mx = _
      rw [hmod]
    · show get_new_value_f val mn mx idx .gt s = _
      unfold get_new_value_f
      rw [findIdx_dot_none s hdot]
      show clamp (val - (10 : ℚ) ^ (((s.length : Int) - idx - 1) % (2 : Int) ^ 64)) mn mx = _
      rw [hmod]
  · intro intPart fracPart hdotI hs
    subst hs
    constructor
    · show get_new_value_f val mn mx idx .lt _ = _
      unfold get_new_value_f
      rw [findIdx_dot_append intPart fracPart hdotI]
    · show get_new_value_f val mn mx idx .gt _ = _
      unfold get_new_value_f
      rw [findIdx_dot_append intPart fracPart hdotI]
  · intro intPart fracPart hdotI hs hidx
    subst hs
    subst hidx
    show get_new_value_f val mn mx (intPart.length + 1) .lt _ = _
    unfold get_new_value_f
    rw [findIdx_dot_append intPart fracPart hdotI]
    show clamp (val + (10 : ℚ) ^
      (if (intPart.length : Int) - ((intPart.length + 1 : Nat) : Int) - 1 < -1
        then (intPart.length : Int) - ((intPart.length + 1 : Nat) : Int) - 1 + 1
        else (intPart.length : Int) - ((intPart.length + 1 : Nat) : Int) - 1)) mn mx = _
    have h1 : (if (intPart.length : Int) - ((intPart.length + 1 : Nat) : Int) - 1 < -1
        then (intPart.length : Int) - ((intPart.length + 1 : Nat) : Int) - 1 + 1
        else (intPart.length : Int) - ((intPart.length + 1 : Nat) : Int) - 1) = -1 := by
      have h2 : (intPart.length : Int) - ((intPart.length + 1 : Nat) : Int) - 1 = -2 := by
        push_cast
        ring
      rw [h2]
      norm_num
    rw [h1]

/-- Witness for C4 at the spec's concrete example: value 3 shown as
`"03.00"` in `[0, 99.99]`; dragging up on the digit at index 3 (immediately
after the decimal point) adds `10 ^ (-1) = 0.1`, giving 3.1. -/
theorem get_new_value_power_delta_witness :
    get_new_value 3 0 (9999 / 100) 3 Ordering.lt ['0', '3', '.', '0', '0'] = 31 / 10 := by
  have h := (get_new_value_power_delta 3 0 (9999 / 100) 3 ['0', '3', '.', '0', '0']).2.2
    ['0', '3'] ['0', '0'] (by decide) rfl (by decide)
  rw [h]
  with_unfolding_all decide

/-! ### C2 -/

/-- C2 (amended): `get_new_value` returns the old value untouched only when
the ordering is `Equal`; with `Less` or `Greater` it `.unwrap()`s the
numeric conversions, so whenever `from_f64` fails on the clamped result the
call panics (modelled as `none`) instead of keeping the old value. -/
theorem get_new_value_conv_panics {T : Type} (to_f64 : T → Option ℚ)
    (from_f64 : ℚ → Option T) (val mn mx : T) (idx : Nat) (y_ord : Ordering)
    (s : List Char) (vf mnf mxf : ℚ) :
    (get_new_value_conv to_f64 from_f64 val mn mx idx Ordering.eq s = some val) ∧
    (y_ord ≠ Ordering.eq → to_f64 val = some vf → to_f64 mn = some mnf →
      to_f64 mx = some mxf →
      from_f64 (get_new_value_f vf mnf mxf idx y_ord s) = none →
      get_new_value_conv to_f64 from_f64 val mn mx idx y_ord s = none) := by
  refine ⟨rfl, fun hord hval hmin hmax hconv => ?_⟩
  unfold get_new_value_conv
  cases y_ord with
  | eq => exact absurd rfl hord
  | lt =>
    rw [hval, hmin, hmax]
    exact hconv
  | gt =>
    rw [hval, hmin, hmax]
    exact hconv

set_option maxRecDepth 40000 in
/-- C2 counterexample: for `i64` with value = max = `i64::MAX`
(`9223372036854775807`, whose `to_f64` rounds up to `2 ^ 63`), dragging up
on the last digit clamps to `2 ^ 63`, which does not fit back into `i64`:
the checked conversion fails and `get_new_value` panics on the `.unwrap()`
— the result is a panic (modelled `none`), not the unchanged old value. -/
theorem get_new_value_conv_i64_panics :
    get_new_value_conv i64_to_f64 i64_from_f64 (9223372036854775807 : Int) 0
        (9223372036854775807 : Int) 18 Ordering.lt
        ['9', '2', '2', '3', '3', '7', '2', '0', '3', '6', '8', '5', '4', '7', '7', '5', '8', '0',
          '7'] = none ∧
    get_new_value_conv i64_to_f64 i64_from_f64 (9223372036854775807 : Int) 0
        (9223372036854775807 : Int) 18 Ordering.lt
        ['9', '2', '2', '3', '3', '7', '2', '0', '3', '6', '8', '5', '4', '7', '7', '5', '8', '0',
          '7'] ≠ some (9223372036854775807 : Int) := by
  with_unfolding_all decide

set_option maxRecDepth 40000 in
/-- Witness for the amended C2 at the `i64` model: the `Equal` ordering
keeps the old value, while `Less` at `i64::MAX` makes the conversion fail
and the call panic. -/
theorem get_new_value_conv_panics_witness :
    get_new_value_conv i64_to_f64 i64_from_f64 (9223372036854775807 : Int) 0
        (9223372036854775807 : Int) 18 Ordering.eq
        ['9', '2', '2', '3', '3', '7', '2', '0', '3', '6', '8', '5', '4', '7', '7', '5', '8', '0',
          '7'] = some (9223372036854775807 : Int) ∧
    get_new_value_conv i64_to_f64 i64_from_f64 (9223372036854775807 : Int) 0
        (9223372036854775807 : Int) 18 Ordering.lt
        ['9', '2', '2', '3', '3', '7', '2', '0', '3', '6', '8', '5', '4', '7', '7', '5', '8', '0',
          '7'] = none := by
  have h := get_new_value_conv_panics i64_to_f64 i64_from_f64 (9223372036854775807 : Int) 0
    (9223372036854775807 : Int) 18 Ordering.lt
    ['9', '2', '2', '3', '3', '7', '2', '0', '3', '6', '8', '5', '4', '7', '7', '5', '8', '0', '7']
    ((round_f64_int 9223372036854775807 : Int) : ℚ) ((round_f64_int 0 : Int) : ℚ)
    ((round_f64_int 9223372036854775807 : Int) : ℚ)
  exact ⟨h.1, h.2 (by decide) rfl rfl rfl (by with_unfolding_all decide)⟩

/-! ### C8 -/

theorem slot_scan_eq_none (x0 y : ℚ) (m : Point) (sw rh : ℚ) :
    ∀ (remaining i : Nat),
      (∀ k, i ≤ k → k < i + remaining →
        rectangle_is_over ⟨x0 + k * sw, y, 0⟩ m sw rh = false) →
      slot_scan (x0 + i * sw) y m sw rh i remaining = none := by
  intro remaining
  induction remaining with
  | zero => intro i _; rfl
  | succ r ih =>
    intro i h
    unfold slot_scan
    rw [h i (le_refl i) (by omega)]
    simp only [Bool.false_eq_true, if_false]
    have hx : x0 + (i : ℚ) * sw + sw = x0 + ((i + 1 : Nat) : ℚ) * sw := by
      push_cast
      ring
    rw [hx]
    exact ih (i + 1) (fun k hk1 hk2 => h k (by omega) (by omega))

theorem slot_scan_eq_found (x0 y : ℚ) (m : Point) (sw rh : ℚ) (j : Nat) :
    ∀ (remaining i : Nat), i ≤ j → j < i + remaining →
      rectangle_is_over ⟨x0 + j * sw, y, 0⟩ m sw rh = true →
      (∀ k, i ≤ k → k < j → rectangle_is_over ⟨x0 + k * sw, y, 0⟩ m sw rh = false) →
      slot_scan (x0 + i * sw) y m sw rh i remaining = some (Element.ValueGlyph j m.y) := by
  intro remaining
  induction remaining with
  | zero => intro i _ h2; omega
  | succ r ih =>
    intro i hij hjr hC hprev
    unfold slot_scan
    by_cases hi : i = j
    · subst hi
      rw [hC]
      simp
    · rw [hprev i (le_refl _) (by omega)]
      simp only [Bool.false_eq_true, if_false]
      have hx : x0 + (i : ℚ) * sw + sw = x0 + ((i + 1 : Nat) : ℚ) * sw := by
        push_cast
        ring
      rw [hx]
      exact ih (i + 1) (by omega) (by omega) hC (fun k hk1 hk2 => hprev k (by omega) hk2)

/-- C8: the hit-test hierarchy of `is_over`. The result is `none` exactly
when the pointer is outside the outer rectangle; inside it, the label
rectangle takes precedence and yields `LabelGlyphs`; otherwise, inside the
value-slot region, the digit slots of width
`value_glyph_slot_width = floor(fontSize * 0.75)` are scanned left to
right and the first slot containing the pointer yields
`ValueGlyph slotIndex pointerY`; outside the value-slot region, or when the
scan exhausts without a containing slot, the result is `Rect`. -/
theorem is_over_characterization (pos : Point) (frame_w : ℚ) (mouse_pos : Point)
    (rect_w rect_h : ℚ) (l_pos : Point) (label_w label_h : ℚ)
    (val_string_w val_string_h : ℚ) (len : Nat) :
    (is_over pos frame_w mouse_pos rect_w rect_h l_pos label_w label_h
        val_string_w val_string_h len = none ↔
      rectangle_is_over pos mouse_pos rect_w rect_h = false) ∧
    (rectangle_is_over pos mouse_pos rect_w rect_h = true →
      rectangle_is_over l_pos mouse_pos label_w label_h = true →
      is_over pos frame_w mouse_pos rect_w rect_h l_pos label_w label_h
        val_string_w val_string_h len = some Element.LabelGlyphs) ∧
    (rectangle_is_over pos mouse_pos rect_w rect_h = true →
      rectangle_is_over l_pos mouse_pos label_w label_h = false →
      rectangle_is_over ⟨l_pos.x + label_w, pos.y + frame_w, 0⟩ mouse_pos val_string_w
        (rect_h - frame_w * 2) = false →
      is_over pos frame_w mouse_pos rect_w rect_h l_pos label_w label_h
        val_string_w val_string_h len = some Element.Rect) ∧
    (rectangle_is_over pos mouse_pos rect_w rect_h = true →
      rectangle_is_over l_pos mouse_pos label_w label_h = false →
      rectangle_is_over ⟨l_pos.x + label_w, pos.y + frame_w, 0⟩ mouse_pos val_string_w
        (rect_h - frame_w * 2) = true →
      (∀ j, j < len →
        rectangle_is_over
          ⟨l_pos.x + label_w + j * value_glyph_slot_width (f64_as_u32 val_string_h),
            pos.y + frame_w, 0⟩ mouse_pos
          (value_glyph_slot_width (f64_as_u32 val_string_h)) rect_h = true →
        (∀ k, k < j →
          rectangle_is_over
            ⟨l_pos.x + label_w + k * value_glyph_slot_width (f64_as_u32 val_string_h),
              pos.y + frame_w, 0⟩ mouse_pos
            (value_glyph_slot_width (f64_as_u32 val_string_h)) rect_h = false) →
        is_over pos frame_w mouse_pos rect_w rect_h l_pos label_w label_h
          val_string_w val_string_h len = some (Element.ValueGlyph j mouse_pos.y)) ∧
      ((∀ k, k < len →
        rectangle_is_over
          ⟨l_pos.x + label_w + k * value_glyph_slot_width (f64_as_u32 val_string_h),
            pos.y + frame_w, 0⟩ mouse_pos
          (value_glyph_slot_width (f64_as_u32 val_string_h)) rect_h = false) →
        is_over pos frame_w mouse_pos rect_w rect_h l_pos label_w label_h
          val_string_w val_string_h len = some Element.Rect)) := by
  refine ⟨⟨fun h => ?_, fun hA => ?_⟩, fun hA hL => ?_, fun hA hL hS => ?_, fun hA hL hS => ?_⟩
  · -- none implies outside the outer rectangle
    cases hA : rectangle_is_over pos mouse_pos rect_w rect_h with
    | false => rfl
    | true =>
      exfalso
      unfold is_over at h
      rw [hA] at h
      cases hL : rectangle_is_over l_pos mouse_pos label_w label_h with
      | true => rw [hL] at h; simp at h
      | false =>
        rw [hL] at h
        simp only at h
        cases hS : rectangle_is_over ⟨l_pos.x + label_w, pos.y + frame_w, 0⟩ mouse_pos
            val_string_w (rect_h - frame_w * 2) with
        | false => rw [hS] at h; simp at h
        | true =>
          rw [hS] at h
          simp only at h
          cases hscan : slot_scan (l_pos.x + label_w) (pos.y + frame_w) mouse_pos
              (value_glyph_slot_width (f64_as_u32 val_string_h)) rect_h 0 len with
          | some e => rw [hscan] at h; simp at h
          | none => rw [hscan] at h; simp at h
  · -- outside the outer rectangle implies none
    unfold is_over
    rw [hA]
  · -- label rectangle takes precedence
    unfold is_over
    rw [hA, hL]
  · -- inside the body but outside the value-slot region
    unfold is_over
    rw [hA, hL]
    simp only
    rw [hS]
  · -- inside the value-slot region: scan the digit slots
    constructor
    · intro j hj hCj hprev
      have hscan := slot_scan_eq_found (l_pos.x + label_w) (pos.y + frame_w) mouse_pos
        (value_glyph_slot_width (f64_as_u32 val_string_h)) rect_h j len 0 (Nat.zero_le j)
        (by omega) hCj (fun k _ hk2 => hprev k hk2)
      rw [show l_pos.x + label_w + (0 : Nat) * value_glyph_slot_width (f64_as_u32 val_string_h) =
        l_pos.x + label_w by push_cast; ring] at hscan
      unfold is_over
      rw [hA, hL]
      simp only
      rw [hS]
      simp only
      rw [hscan]
    · intro hnone
      have hscan := slot_scan_eq_none (l_pos.x + label_w) (pos.y + frame_w) mouse_pos
        (value_glyph_slot_width (f64_as_u32 val_string_h)) rect_h len 0
        (fun k _ hk2 => hnone k (by omega))
      rw [show l_pos.x + label_w + (0 : Nat) * value_glyph_slot_width (f64_as_u32 val_string_h) =
        l_pos.x + label_w by push_cast; ring] at hscan
      unfold is_over
      rw [hA, hL]
      simp only
      rw [hS]
      simp only
      rw [hscan]

set_option maxRecDepth 40000 in
/-- Witness for C8 at a concrete layout: widget at the origin, 100 x 40,
frame width 1, label rectangle at (10, 8) sized 20 x 24, three value slots
of width 18 (font size 24) starting at x = 30; the pointer at (49, 20)
lands in slot 1 and `is_over` returns `ValueGlyph 1 20`. -/
theorem is_over_characterization_witness :
    is_over ⟨0, 0, 0⟩ 1 ⟨49, 20, 0⟩ 100 40 ⟨10, 8, 0⟩ 20 24 54 24 3 =
      some (Element.ValueGlyph 1 20) := by
  refine ((is_over_characterization ⟨0, 0, 0⟩ 1 ⟨49, 20, 0⟩ 100 40 ⟨10, 8, 0⟩ 20 24 54
      24 3).2.2.2 (by with_unfolding_all decide) (by with_unfolding_all decide)
      (by with_unfolding_all decide)).1 1 (by omega) (by with_unfolding_all decide)
    (fun k hk => ?_)
  have hk0 : k = 0 := by omega
  subst hk0
  with_unfolding_all decide

/-! ### C9 -/

/-- C9: in each frame, when a callback is supplied it is invoked exactly
once — with the committed value as argument — if the committed value
differs from the frame's incoming value or the state transitioned between
`Highlighted` and `Clicked` in either direction, and it is not invoked at
all otherwise. -/
theorem draw_frame_callback_once (ts : ℚ → List Char) (c : NumberDialerContext)
    (prev : State) (mouse : MouseState) (hcb : c.maybe_callback = true) :
    ((draw_frame ts c prev mouse).new_val ≠ c.value ∨
        hl_click_transition prev (draw_frame ts c prev mouse).new_state = true →
      (draw_frame ts c prev mouse).callback_args = [(draw_frame ts c prev mouse).new_val]) ∧
    ((draw_frame ts c prev mouse).new_val = c.value ∧
        hl_click_transition prev (draw_frame ts c prev mouse).new_state = false →
      (draw_frame ts c prev mouse).callback_args = []) := by
  have hspec : (draw_frame ts c prev mouse).callback_args =
      (if decide (c.value ≠ (draw_frame ts c prev mouse).new_val) ||
          hl_click_transition prev (draw_frame ts c prev mouse).new_state
        then (if c.maybe_callback then [(draw_frame ts c prev mouse).new_val] else [])
        else []) := rfl
  rw [hspec, hcb]
  constructor
  · intro h
    have hcond : (decide (c.value ≠ (draw_frame ts c prev mouse).new_val) ||
        hl_click_transition prev (draw_frame ts c prev mouse).new_state) = true := by
      rw [Bool.or_eq_true]
      rcases h with h | h
      · exact Or.inl (decide_eq_true (Ne.symm h))
      · exact Or.inr h
    rw [hcond]
    simp
  · rintro ⟨h1, h2⟩
    have hcond : (decide (c.value ≠ (draw_frame ts c prev mouse).new_val) ||
        hl_click_transition prev (draw_frame ts c prev mouse).new_state) = false := by
      rw [Bool.or_eq_false_iff]
      exact ⟨decide_eq_false (fun hne => hne h1.symm), h2⟩
    rw [hcond]
    simp

set_option maxRecDepth 40000 in
/-- Witness for C9 at a concrete frame: value 5 in `[0, 99]`, pointer
outside the widget with the button up, so the state stays `Normal`, the
value is unchanged and the supplied callback is not invoked. -/
theorem draw_frame_callback_once_witness :
    (draw_frame (fun _ => ['9', '9'])
        { number_dialer 5 0 99 0 with maybe_callback := true }
        State.Normal ⟨⟨-10, -10, 0⟩, MouseButtonState.Up⟩).callback_args = [] := by
  apply (draw_frame_callback_once (fun _ => ['9', '9'])
      { number_dialer 5 0 99 0 with maybe_callback := true }
      State.Normal ⟨⟨-10, -10, 0⟩, MouseButtonState.Up⟩ rfl).2
  constructor
  · with_unfolding_all decide
  · with_unfolding_all decide

end Conrod
